import Mathlib

/-!
Verification of the RustCC conformance corpus and of the spec-modelled
transformation passes (control-flow flattening, string-literal encryption).

Shallow embedding conventions:
- C `int` values are modelled as `Int`; C `%` is `Int.tmod` and C `/` is
  `Int.tdiv` (both truncate toward zero, as C does).
- Loops are modelled either by fuel-indexed structural recursion (with the
  exact iteration count supplied, so the kernel can evaluate them) or by
  well-founded recursion when a theorem over all inputs is needed.
- The flattening and string-encryption passes are not present under src/
  (only the corpus they must handle is), so they are modelled from the spec;
  their definitions carry doc comments starting `Modelled from the spec:`.
-/

namespace ExamplesControlFlow

/-- Embedding of process_value from src/examples/control_flow.c.
Nested conditionals: value > 100 splits on parity, else value > 50 splits on
divisibility by 3, else splits on parity. -/
def process_value (value : Int) : Int :=
  if value > 100 then
    if value.tmod 2 = 0 then value.tdiv 2
    else value * 3 + 1
  else if value > 50 then
    if value.tmod 3 = 0 then value * 3
    else value - 10
  else
    if value.tmod 2 = 0 then value * value
    else value + 1

/-- Embedding of complex_switch from src/examples/control_flow.c.
The first switch initializes result = 0; case 1 sets 100 and breaks; case 2
sets 200 and falls through into case 3, which adds 300; case 3 entered
directly adds 300 to the initial 0; cases 4 and 5 set 500; default sets -1.
If the result is positive, a nested switch maps 100 to result * 2, 200 and
500 to result / 2, 600 to result - 100, and anything else to result. -/
def complex_switch (code : Int) : Int :=
  let result : Int :=
    if code = 1 then 100
    else if code = 2 then 200 + 300
    else if code = 3 then 0 + 300
    else if code = 4 ∨ code = 5 then 500
    else -1
  if result > 0 then
    if result = 100 then result * 2
    else if result = 200 ∨ result = 500 then result.tdiv 2
    else if result = 600 then result - 100
    else result
  else result

/-- Instrumentation record for the non-local jumps taken while running
complex_loops: how often the continue, the inner break and the outer break
fire. -/
structure LoopCounts where
  continues : Nat
  innerBreaks : Nat
  outerBreaks : Nat
deriving DecidableEq, Repr

/-- Embedding of the inner loop of complex_loops
(for j = 0; j < i; j++ with sum += i * j and break once sum > 1000).
The fuel argument is the remaining iteration bound; the caller passes
i.toNat, the exact trip count, so the fuel-0 branch is never taken there. -/
def innerLoop : Nat → Int → Int → Int → LoopCounts → Int × LoopCounts
  | 0, _, _, sum, c => (sum, c)
  | fuel + 1, j, i, sum, c =>
    if j < i then
      let sum2 := sum + i * j
      if sum2 > 1000 then (sum2, ⟨c.continues, c.innerBreaks + 1, c.outerBreaks⟩)
      else innerLoop fuel (j + 1) i sum2 c
    else (sum, c)

/-- Embedding of the outer loop of complex_loops
(for i = 0; i < n; i++ with continue when i % 3 == 0, the inner loop, and
break once sum > 2000). The caller passes n.toNat as fuel, the exact trip
count. -/
def outerLoop : Nat → Int → Int → Int → LoopCounts → Int × LoopCounts
  | 0, _, _, sum, c => (sum, c)
  | fuel + 1, i, n, sum, c =>
    if i < n then
      if i.tmod 3 = 0 then
        outerLoop fuel (i + 1) n sum ⟨c.continues + 1, c.innerBreaks, c.outerBreaks⟩
      else
        let r := innerLoop i.toNat 0 i sum c
        if r.1 > 2000 then (r.1, ⟨r.2.continues, r.2.innerBreaks, r.2.outerBreaks + 1⟩)
        else outerLoop fuel (i + 1) n r.1 r.2
    else (sum, c)

/-- Instrumented run of complex_loops from src/examples/control_flow.c:
returns the final sum together with the counts of taken jumps. -/
def complex_loops_run (n : Int) : Int × LoopCounts :=
  outerLoop n.toNat 0 n 0 ⟨0, 0, 0⟩

/-- Embedding of complex_loops from src/examples/control_flow.c (the returned
sum, discarding the instrumentation). -/
def complex_loops (n : Int) : Int :=
  (complex_loops_run n).1

end ExamplesControlFlow

namespace ExamplesFibonacci

/-- Embedding of the recursive fibonacci from src/examples/fibonacci.c:
returns n for n <= 1, otherwise fibonacci (n-1) + fibonacci (n-2). -/
def fibonacci (n : Int) : Int :=
  if _h : n ≤ 1 then n
  else fibonacci (n - 1) + fibonacci (n - 2)
termination_by n.toNat
decreasing_by
· omega
· omega

/-- Embedding of the for loop of fibonacci_iterative
(for i = 2; i <= n; i++ with c = a + b; a = b; b = c), returning b when the
loop exits. -/
def fibLoop (n a b i : Int) : Int :=
  if h : i ≤ n then fibLoop n b (a + b) (i + 1)
  else b
termination_by (n + 1 - i).toNat
decreasing_by omega

/-- Embedding of fibonacci_iterative from src/examples/fibonacci.c:
returns n for n <= 1, otherwise runs the loop from a = 0, b = 1, i = 2. -/
def fibonacci_iterative (n : Int) : Int :=
  if n ≤ 1 then n
  else fibLoop n 0 1 2

end ExamplesFibonacci

namespace ExamplesStringEncryption

/-- Modelled from the spec: the standard C strcmp from string.h, which the
repository does not provide (its stand-in header covers only stdio).
Strings are modelled as the byte sequences before the NUL terminator;
strcmp compares byte by byte and returns the difference of the first
differing pair, the terminator counting as byte 0. -/
def strcmp : List Nat → List Nat → Int
  | [], [] => 0
  | [], b :: _ => 0 - (b : Int)
  | a :: _, [] => (a : Int)
  | a :: as, b :: bs => if a = b then strcmp as bs else (a : Int) - (b : Int)

/-- Byte sequence of the literal "admin" from src/examples/string_encryption.c. -/
def valid_username : List Nat := [97, 100, 109, 105, 110]

/-- Byte sequence of the literal "supersecret123" from
src/examples/string_encryption.c. -/
def valid_password : List Nat :=
  [115, 117, 112, 101, 114, 115, 101, 99, 114, 101, 116, 49, 50, 51]

/-- Embedding of authenticate from src/examples/string_encryption.c: returns
1 when strcmp(username, "admin") == 0 and strcmp(password, "supersecret123")
== 0, and 0 otherwise. -/
def authenticate (username password : List Nat) : Int :=
  if strcmp username valid_username = 0 ∧ strcmp password valid_password = 0
  then 1 else 0

end ExamplesStringEncryption

namespace TestsComplex

/-- Embedding of factorial from src/rustcc/tests/complex.c, fuel-indexed so
the kernel can evaluate it; a fuel of n.toNat + 1 covers the whole recursion
(n, n-1, ..., 1), so the fuel-0 branch is never reached from factorial. -/
def factorialF : Nat → Int → Int
  | 0, _ => 1
  | fuel + 1, n => if n ≤ 1 then 1 else n * factorialF fuel (n - 1)

/-- Entry point for factorial with ample fuel. -/
def factorial (n : Int) : Int := factorialF (n.toNat + 1) n

/-- Embedding of fibonacci from src/rustcc/tests/complex.c (0 for n <= 0,
1 for n = 1, else the sum of the two previous), fuel-indexed; the recursion
depth is at most n, so a fuel of n.toNat + 1 suffices. -/
def fibonacciF : Nat → Int → Int
  | 0, _ => 0
  | fuel + 1, n =>
    if n ≤ 0 then 0
    else if n = 1 then 1
    else fibonacciF fuel (n - 1) + fibonacciF fuel (n - 2)

/-- Entry point for fibonacci with ample fuel. -/
def fibonacci (n : Int) : Int := fibonacciF (n.toNat + 1) n

/-- Embedding of the loop of calculate_sum
(for i = 0; i < size; i++ with sum += arr[i]); fuel covers the trip count. -/
def csLoop : Nat → List Int → Int → Int → Int → Int
  | 0, _, _, _, sum => sum
  | fuel + 1, arr, size, i, sum =>
    if i < size then csLoop fuel arr size (i + 1) (sum + arr.getD i.toNat 0)
    else sum

/-- Embedding of calculate_sum from src/rustcc/tests/complex.c. -/
def calculate_sum (arr : List Int) (size : Int) : Int :=
  csLoop (size.toNat + 1) arr size 0 0

/-- Embedding of the for loop of main in src/rustcc/tests/complex.c
(for i = 0; i < 3; i++ with z += i * 2). -/
def mainForLoop : Nat → Int → Int → Int
  | 0, _, z => z
  | fuel + 1, i, z => if i < 3 then mainForLoop fuel (i + 1) (z + i * 2) else z

/-- Embedding of the while loop of main in src/rustcc/tests/complex.c
(while counter > 0: z += counter; counter--). -/
def mainWhileLoop : Nat → Int → Int → Int
  | 0, _, z => z
  | fuel + 1, counter, z =>
    if counter > 0 then mainWhileLoop fuel (counter - 1) (z + counter) else z

/-- Embedding of main from src/rustcc/tests/complex.c: the branch on x > y,
the two loops, the three calls, the compound calculation with C truncated
division and remainder, and the final switch on result % 3. -/
def main : Int :=
  let x : Int := 42
  let y : Int := 10
  let numbers : List Int := [5, 10, 15, 20, 25]
  let z : Int := if x > y then x - y else y - x
  let z := mainForLoop 4 0 z
  let z := mainWhileLoop 6 5 z
  let fact := factorial 4
  let fib := fibonacci 7
  let sum := calculate_sum numbers 5
  let result := z + (fact * fib).tdiv (sum.tmod 10 + 1)
  if result.tmod 3 = 0 then result + 5
  else if result.tmod 3 = 1 then result * 2
  else result - 1

end TestsComplex

namespace Corpus

/-- Assignment operator forms occurring in the corpus: plain =, compound
+=, -= and *=. -/
inductive AssignOp where
  | plainAsgn
  | addAsgn
  | subAsgn
  | mulAsgn
deriving DecidableEq

mutual

/-- Expression nodes of the corpus subset of C: integer literals,
identifiers, binary operators (named by their C spelling), assignments,
postfix increment and decrement, array indexing, and calls. -/
inductive CExpr where
  | intLit (n : Int)
  | ident (name : String)
  | bin (op : String) (l r : CExpr)
  | assignE (op : AssignOp) (lhs rhs : CExpr)
  | postInc (e : CExpr)
  | postDec (e : CExpr)
  | index (a i : CExpr)
  | call (f : String) (args : CExprList)

/-- Argument and initializer lists of expressions. -/
inductive CExprList where
  | nil
  | cons (e : CExpr) (rest : CExprList)

end

mutual

/-- Statement nodes of the corpus subset of C. -/
inductive CStmt where
  | skip
  | seq (a b : CStmt)
  | varDeclI (name : String) (init : CExpr)
  | arrDeclI (name : String) (inits : CExprList)
  | exprS (e : CExpr)
  | ifElse (c : CExpr) (t e : CStmt)
  | ifThen (c : CExpr) (t : CStmt)
  | forS (init : CStmt) (cond : CExpr) (step : CStmt) (body : CStmt)
  | whileS (c : CExpr) (body : CStmt)
  | switchS (scrut : CExpr) (arms : CCases)
  | breakS
  | continueS
  | retE (e : CExpr)

/-- Ordered switch arms; a label of none is the default arm. -/
inductive CCases where
  | nil
  | caseArm (lbl : Option Int) (body : CStmt) (rest : CCases)

end

mutual

/-- Decides whether an assignment with the given operator occurs anywhere in
an expression. -/
def exprHasAssignOp (op : AssignOp) : CExpr → Bool
  | .intLit _ => false
  | .ident _ => false
  | .bin _ l r => exprHasAssignOp op l || exprHasAssignOp op r
  | .assignE k l r =>
    decide (k = op) || exprHasAssignOp op l || exprHasAssignOp op r
  | .postInc e => exprHasAssignOp op e
  | .postDec e => exprHasAssignOp op e
  | .index a i => exprHasAssignOp op a || exprHasAssignOp op i
  | .call _ args => exprListHasAssignOp op args

/-- Decides whether an assignment with the given operator occurs in a list of
expressions. -/
def exprListHasAssignOp (op : AssignOp) : CExprList → Bool
  | .nil => false
  | .cons e rest => exprHasAssignOp op e || exprListHasAssignOp op rest

end

mutual

/-- Decides whether an assignment with the given operator occurs anywhere in
a statement. -/
def stmtHasAssignOp (op : AssignOp) : CStmt → Bool
  | .skip => false
  | .seq a b => stmtHasAssignOp op a || stmtHasAssignOp op b
  | .varDeclI _ e => exprHasAssignOp op e
  | .arrDeclI _ es => exprListHasAssignOp op es
  | .exprS e => exprHasAssignOp op e
  | .ifElse c t e =>
    exprHasAssignOp op c || stmtHasAssignOp op t || stmtHasAssignOp op e
  | .ifThen c t => exprHasAssignOp op c || stmtHasAssignOp op t
  | .forS i c s b =>
    stmtHasAssignOp op i || exprHasAssignOp op c || stmtHasAssignOp op s ||
      stmtHasAssignOp op b
  | .whileS c b => exprHasAssignOp op c || stmtHasAssignOp op b
  | .switchS s arms => exprHasAssignOp op s || casesHasAssignOp op arms
  | .breakS => false
  | .continueS => false
  | .retE e => exprHasAssignOp op e

/-- Decides whether an assignment with the given operator occurs in a list of
switch arms. -/
def casesHasAssignOp (op : AssignOp) : CCases → Bool
  | .nil => false
  | .caseArm _ b rest => stmtHasAssignOp op b || casesHasAssignOp op rest

end

/-- AST of the body of complex_loops, src/examples/control_flow.c lines
43-69: int sum = 0; the nested for loops with continue, sum += i * j and the
two breaks; return sum. -/
def complexLoopsBody : CStmt :=
  .seq (.varDeclI "sum" (.intLit 0))
    (.seq
      (.forS (.varDeclI "i" (.intLit 0))
        (.bin "<" (.ident "i") (.ident "n"))
        (.exprS (.postInc (.ident "i")))
        (.seq
          (.ifThen (.bin "==" (.bin "%" (.ident "i") (.intLit 3)) (.intLit 0))
            .continueS)
          (.seq
            (.forS (.varDeclI "j" (.intLit 0))
              (.bin "<" (.ident "j") (.ident "i"))
              (.exprS (.postInc (.ident "j")))
              (.seq
                (.exprS (.assignE .addAsgn (.ident "sum")
                  (.bin "*" (.ident "i") (.ident "j"))))
                (.ifThen (.bin ">" (.ident "sum") (.intLit 1000)) .breakS)))
            (.ifThen (.bin ">" (.ident "sum") (.intLit 2000)) .breakS))))
      (.retE (.ident "sum")))

/-- AST of the body of main, src/rustcc/tests/complex.c lines 26-76: the
declarations, the branch on x > y, the for and while loops with z += ... and
counter--, the three calls, the compound calculation, and the switch on
result % 3 whose arms use result += 5, result *= 2 and result -= 1. -/
def complexMainBody : CStmt :=
  .seq (.varDeclI "x" (.intLit 42))
  (.seq (.varDeclI "y" (.intLit 10))
  (.seq (.varDeclI "z" (.intLit 0))
  (.seq (.arrDeclI "numbers"
          (.cons (.intLit 5) (.cons (.intLit 10) (.cons (.intLit 15)
            (.cons (.intLit 20) (.cons (.intLit 25) .nil))))))
  (.seq (.ifElse (.bin ">" (.ident "x") (.ident "y"))
          (.exprS (.assignE .plainAsgn (.ident "z")
            (.bin "-" (.ident "x") (.ident "y"))))
          (.exprS (.assignE .plainAsgn (.ident "z")
            (.bin "-" (.ident "y") (.ident "x")))))
  (.seq (.forS (.varDeclI "i" (.intLit 0))
          (.bin "<" (.ident "i") (.intLit 3))
          (.exprS (.postInc (.ident "i")))
          (.exprS (.assignE .addAsgn (.ident "z")
            (.bin "*" (.ident "i") (.intLit 2)))))
  (.seq (.varDeclI "counter" (.intLit 5))
  (.seq (.whileS (.bin ">" (.ident "counter") (.intLit 0))
          (.seq (.exprS (.assignE .addAsgn (.ident "z") (.ident "counter")))
                (.exprS (.postDec (.ident "counter")))))
  (.seq (.varDeclI "fact" (.call "factorial" (.cons (.intLit 4) .nil)))
  (.seq (.varDeclI "fib" (.call "fibonacci" (.cons (.intLit 7) .nil)))
  (.seq (.varDeclI "sum" (.call "calculate_sum"
          (.cons (.ident "numbers") (.cons (.intLit 5) .nil))))
  (.seq (.varDeclI "result" (.bin "+" (.ident "z")
          (.bin "/" (.bin "*" (.ident "fact") (.ident "fib"))
            (.bin "+" (.bin "%" (.ident "sum") (.intLit 10)) (.intLit 1)))))
  (.seq (.switchS (.bin "%" (.ident "result") (.intLit 3))
          (.caseArm (some 0)
            (.seq (.exprS (.assignE .addAsgn (.ident "result") (.intLit 5)))
              .breakS)
          (.caseArm (some 1)
            (.seq (.exprS (.assignE .mulAsgn (.ident "result") (.intLit 2)))
              .breakS)
          (.caseArm none
            (.seq (.exprS (.assignE .subAsgn (.ident "result") (.intLit 1)))
              .breakS)
            .nil))))
  (.retE (.ident "result"))))))))))))))

end Corpus

namespace EncryptPass

/-- Modelled from the spec: the byte transform of the String-Encryption Pass
(section 4.5; the pass itself is not under src/): a byte-wise combination of
the plaintext with a per-literal key stream, here XOR of each byte with the
key-stream byte at its position, starting at the given position. The same
transform is its own inverse, giving the decrypt operation. -/
def xorStream (key : Nat → Nat) : Nat → List Nat → List Nat
  | _, [] => []
  | i, b :: rest => (b ^^^ key i) :: xorStream key (i + 1) rest

/-- Modelled from the spec: encryption of a literal's byte sequence with a
per-literal key stream. -/
def encrypt (key : Nat → Nat) (plain : List Nat) : List Nat :=
  xorStream key 0 plain

/-- Modelled from the spec: decryption of cipher bytes with the literal's key
stream; byte-wise XOR is self-inverse. -/
def decrypt (key : Nat → Nat) (cipher : List Nat) : List Nat :=
  xorStream key 0 cipher

end EncryptPass

namespace Flatten

/-- Modelled from the spec: the terminator of a basic block (section 3 of the
spec; the CFG builder and flattening pass are not under src/). Conditions,
return expressions and switch scrutinees are denoted semantically as
functions of the store type; no string literal occurs in them in the corpus,
so the String-Encryption Pass leaves terminators untouched. -/
inductive Term (σ : Type) where
  | fallthrough (next : Nat)
  | branch (cond : σ → Bool) (thenB elseB : Nat)
  | ret (val : σ → Int)
  | switchDisp (scrut : σ → Int) (cases : List (Int × Nat)) (dflt : Nat)

/-- Modelled from the spec: a string source at a use site in the transformed
program: either a plain literal's bytes, or an Encrypted Literal record, the
cipher bytes together with the per-literal key stream, to be decrypted
before use. -/
inductive StrSource where
  | plain (bytes : List Nat)
  | encrypted (key : Nat → Nat) (cipher : List Nat)

/-- Modelled from the spec: the bytes a string source denotes at its use
site; an encrypted literal is decrypted before use. -/
def strValue : StrSource → List Nat
  | .plain bs => bs
  | .encrypted key cipher => EncryptPass.decrypt key cipher

/-- Observable output event: an integer formatted to stdout, or the stdout
bytes of a printed string. -/
inductive Ev where
  | outInt (v : Int)
  | outStr (bytes : List Nat)
deriving DecidableEq

/-- Modelled from the spec: one straight-line statement of a basic block: a
store update, output of an integer value, or output of a string. -/
inductive SStmt (σ : Type) where
  | update (f : σ → σ)
  | outInt (f : σ → Int)
  | outStr (src : StrSource)

/-- Modelled from the spec: running a block's straight-line statements in
order, threading the store and collecting the emitted output events. -/
def runBody {σ : Type} : List (SStmt σ) → σ → σ × List Ev
  | [], s => (s, [])
  | .update f :: rest, s => runBody rest (f s)
  | .outInt f :: rest, s =>
    let r := runBody rest s
    (r.1, .outInt (f s) :: r.2)
  | .outStr src :: rest, s =>
    let r := runBody rest s
    (r.1, .outStr (strValue src) :: r.2)

/-- Modelled from the spec: a basic block, an ordered straight-line statement
sequence plus a terminator. -/
structure Block (σ : Type) where
  body : List (SStmt σ)
  term : Term σ

/-- Modelled from the spec: a function's CFG, an index-addressed block array
with an entry block id; edges are ids into the array. -/
structure CFG (σ : Type) where
  blocks : List (Block σ)
  entry : Nat

/-- Modelled from the spec: the value-to-block mapping of a SwitchDispatch
terminator, first matching case wins, otherwise the default block. -/
def lookupCase (v : Int) : List (Int × Nat) → Nat → Nat
  | [], d => d
  | (k, b) :: rest, d => if v = k then b else lookupCase v rest d

/-- Modelled from the spec: evaluating a terminator in a store either
produces the function's return value or the id of the next block. -/
def stepTerm {σ : Type} (t : Term σ) (s : σ) : Int ⊕ Nat :=
  match t with
  | .fallthrough n => .inr n
  | .branch c tB eB => .inr (if c s then tB else eB)
  | .ret v => .inl (v s)
  | .switchDisp sc cs d => .inr (lookupCase (sc s) cs d)

/-- Modelled from the spec: execution of the original CFG from a block id,
accumulating the emitted output events; fuel bounds the number of blocks
executed, with none when it runs out (an unfinished run), none as well on a
dangling block id. The result is the observable behavior: the ordered
stdout events plus the return value, the process exit code. -/
def execCFG {σ : Type} (g : CFG σ) : Nat → Nat → σ → List Ev →
    Option (List Ev × Int)
  | 0, _, _, _ => none
  | fuel + 1, bid, s, out =>
    match g.blocks[bid]? with
    | none => none
    | some b =>
      let r := runBody b.body s
      match stepTerm b.term r.1 with
      | .inl v => some (out ++ r.2, v)
      | .inr nb => execCFG g fuel nb r.1 (out ++ r.2)

/-- Modelled from the spec: execution of the flattened dispatcher form. The
state variable holds enc applied to a block id (enc is the chosen block-to-
state numbering, dec its inverse); each dispatch arm runs one block's
statements and then assigns the next state, and a Return block ends the
loop carrying the return value. -/
def execFlat {σ : Type} (g : CFG σ) (enc dec : Nat → Nat) : Nat → Nat → σ →
    List Ev → Option (List Ev × Int)
  | 0, _, _, _ => none
  | fuel + 1, st, s, out =>
    match g.blocks[dec st]? with
    | none => none
    | some b =>
      let r := runBody b.body s
      match stepTerm b.term r.1 with
      | .inl v => some (out ++ r.2, v)
      | .inr nb => execFlat g enc dec fuel (enc nb) r.1 (out ++ r.2)

/-- Modelled from the spec: the String-Encryption Pass on one straight-line
statement: each plain string literal is replaced by its cipher bytes under
the per-literal key stream that keyOf chooses for it, to be decrypted before
use; statements bearing no string literal are untouched. -/
def encryptSStmt {σ : Type} (keyOf : List Nat → Nat → Nat) :
    SStmt σ → SStmt σ
  | .outStr (.plain bs) =>
    .outStr (.encrypted (keyOf bs) (EncryptPass.encrypt (keyOf bs) bs))
  | s => s

/-- Modelled from the spec: the String-Encryption Pass on a block: only the
leaf literal statements change; the terminator is untouched. -/
def encryptBlock {σ : Type} (keyOf : List Nat → Nat → Nat) (b : Block σ) :
    Block σ :=
  ⟨b.body.map (encryptSStmt keyOf), b.term⟩

/-- Modelled from the spec: the String-Encryption Pass on a whole function
CFG (already flattened or not — it is insensitive to control shape): it maps
over every block. -/
def encryptCFG {σ : Type} (keyOf : List Nat → Nat → Nat) (g : CFG σ) :
    CFG σ :=
  ⟨g.blocks.map (encryptBlock keyOf), g.entry⟩

/-- Concrete two-block CFG over an Int store, printing an integer, the
string "%d " and another integer, used to exhibit the equivalence on an
explicit input. -/
def exampleCFG : CFG Int :=
  ⟨[⟨[.update (fun s => s + 1), .outInt (fun s => s)], .fallthrough 1⟩,
    ⟨[.outStr (.plain [37, 100, 32]), .outInt (fun s => s * 2)],
      .ret (fun s => s + 100)⟩], 0⟩

/-- Concrete block-to-state numbering for the example. -/
def encEx (i : Nat) : Nat := i + 5

/-- Concrete inverse numbering for the example. -/
def decEx (st : Nat) : Nat := st - 5

/-- Concrete per-literal key-stream chooser for the example. -/
def keyEx (bytes : List Nat) (i : Nat) : Nat := bytes.length + 3 * i + 90

end Flatten

namespace ExamplesControlFlow

/-- C1, as stated, is false: process_value(75) takes the value > 50 branch
with 75 % 3 == 0, returning 75 * 3 = 225, not 65. -/
theorem process_value_spec_values_false :
    ¬ (process_value 120 = 60 ∧ process_value 75 = 65 ∧
        process_value 30 = 900) := by
  decide

/-- C1 (amended): process_value returns 60 at 120, 225 at 75 (since
75 % 3 == 0 the value * 3 branch is taken), and 900 at 30. -/
theorem process_value_values :
    process_value 120 = 60 ∧ process_value 75 = 225 ∧
      process_value 30 = 900 := by
  decide

/-- C2: complex_switch(2) returns 250: case 2 sets result to 200 and falls
through into case 3 giving 500, and the nested switch on 500 returns
500 / 2 = 250. -/
theorem complex_switch_two : complex_switch 2 = 250 := by
  decide

/-- C4, as stated, is false: in the run of complex_loops(10) the continue is
taken, but neither early-exit break ever fires. -/
theorem complex_loops_jumps_false :
    ¬ (1 ≤ (complex_loops_run 10).2.continues ∧
        1 ≤ (complex_loops_run 10).2.innerBreaks ∧
        1 ≤ (complex_loops_run 10).2.outerBreaks) := by
  decide

/-- C4 (amended): the run of complex_loops(10) returns sum 447, takes the
continue four times (at i = 0, 3, 6, 9) and never takes either break, since
the sum never exceeds 1000. -/
theorem complex_loops_jumps :
    (complex_loops_run 10).1 = 447 ∧
      (complex_loops_run 10).2.continues = 4 ∧
      (complex_loops_run 10).2.innerBreaks = 0 ∧
      (complex_loops_run 10).2.outerBreaks = 0 := by
  decide

end ExamplesControlFlow

namespace ExamplesFibonacci

lemma fibonacci_of_le_one {n : Int} (h : n ≤ 1) : fibonacci n = n := by
  rw [fibonacci]
  simp [h]

lemma fibonacci_rec {n : Int} (h : 2 ≤ n) :
    fibonacci n = fibonacci (n - 1) + fibonacci (n - 2) := by
  rw [fibonacci]
  have h1 : ¬ n ≤ 1 := by omega
  simp [h1]

lemma fibonacci_eq_fib : ∀ k : Nat, ∀ n : Int, 0 ≤ n → n.toNat = k →
    fibonacci n = (Nat.fib k : Int) := by
  intro k
  induction k using Nat.strong_induction_on with
  | _ k ih =>
    intro n hn hk
    by_cases h1 : n ≤ 1
    · have hn01 : n = 0 ∨ n = 1 := by omega
      rcases hn01 with h | h
      · subst h
        have hk0 : k = 0 := by omega
        subst hk0
        rw [fibonacci_of_le_one (by omega)]
        simp
      · subst h
        have hk1 : k = 1 := by omega
        subst hk1
        rw [fibonacci_of_le_one (by omega)]
        simp
    · have h2 : 2 ≤ n := by omega
      rw [fibonacci_rec h2]
      rw [ih (n - 1).toNat (by omega) (n - 1) (by omega) rfl]
      rw [ih (n - 2).toNat (by omega) (n - 2) (by omega) rfl]
      have hk2 : k = (n - 2).toNat + 2 := by omega
      subst hk2
      have h12 : (n - 1).toNat = (n - 2).toNat + 1 := by omega
      rw [h12, Nat.fib_add_two]
      push_cast
      ring

lemma fibLoop_eq : ∀ d : Nat, ∀ n i : Int, 2 ≤ i → i ≤ n + 1 →
    (n + 1 - i).toNat = d →
    fibLoop n (Nat.fib (i - 2).toNat : Int) (Nat.fib (i - 1).toNat : Int) i
      = (Nat.fib n.toNat : Int) := by
  intro d
  induction d with
  | zero =>
    intro n i h2 hle hd
    have hni : ¬ i ≤ n := by omega
    rw [fibLoop]
    simp only [hni, dite_false]
    have h1n : (i - 1).toNat = n.toNat := by omega
    rw [h1n]
  | succ d ih =>
    intro n i h2 hle hd
    have hi : i ≤ n := by omega
    rw [fibLoop]
    simp only [hi, dite_true]
    have hab : (Nat.fib (i - 2).toNat : Int) + (Nat.fib (i - 1).toNat : Int)
        = (Nat.fib ((i + 1) - 1).toNat : Int) := by
      have e1 : ((i + 1) - 1).toNat = (i - 2).toNat + 2 := by omega
      rw [e1, Nat.fib_add_two]
      have e2 : (i - 1).toNat = (i - 2).toNat + 1 := by omega
      rw [e2]
      push_cast
      ring
    have hmid : (i - 1).toNat = ((i + 1) - 2).toNat := by omega
    rw [hab, hmid]
    exact ih n (i + 1) (by omega) (by omega) (by omega)

lemma fibonacci_iterative_eq_fib {n : Int} (h2 : 2 ≤ n) :
    fibonacci_iterative n = (Nat.fib n.toNat : Int) := by
  unfold fibonacci_iterative
  have h1 : ¬ n ≤ 1 := by omega
  simp only [h1, if_false]
  have := fibLoop_eq (n + 1 - 2).toNat n 2 (by omega) (by omega) rfl
  simpa using this

/-- C3: both the recursive fibonacci and the iterative fibonacci_iterative of
src/examples/fibonacci.c return 55 at input 10. -/
theorem fib_ten_both : fibonacci 10 = 55 ∧ fibonacci_iterative 10 = 55 := by
  constructor
  · rw [fibonacci_eq_fib (10:Int).toNat 10 (by norm_num) rfl]
    decide
  · rw [fibonacci_iterative_eq_fib (by norm_num : (2:Int) ≤ 10)]
    decide

/-- C8: for every integer n the recursive and the iterative fibonacci agree;
both return n when n <= 1, and both return the nth Fibonacci number when
n >= 2. -/
theorem fib_rec_iter_equiv (n : Int) :
    fibonacci n = fibonacci_iterative n ∧ (n ≤ 1 → fibonacci n = n) ∧
      (2 ≤ n → fibonacci n = (Nat.fib n.toNat : Int)) := by
  refine ⟨?_, fun h => fibonacci_of_le_one h,
    fun h => fibonacci_eq_fib n.toNat n (by omega) rfl⟩
  by_cases h : n ≤ 1
  · rw [fibonacci_of_le_one h]
    unfold fibonacci_iterative
    simp [h]
  · have h2 : 2 ≤ n := by omega
    rw [fibonacci_eq_fib n.toNat n (by omega) rfl,
      fibonacci_iterative_eq_fib h2]

/-- C8 witness: the equivalence instantiated at n = 10. -/
theorem fib_rec_iter_equiv_witness :
    fibonacci 10 = fibonacci_iterative 10 ∧
      (2 ≤ (10:Int) ∧ fibonacci 10 = (Nat.fib (10:Int).toNat : Int)) :=
  ⟨(fib_rec_iter_equiv 10).1, by norm_num,
    (fib_rec_iter_equiv 10).2.2 (by norm_num)⟩

end ExamplesFibonacci

namespace ExamplesStringEncryption

lemma strcmp_eq_zero_iff : ∀ a b : List Nat,
    (∀ c ∈ a, c ≠ 0) → (∀ c ∈ b, c ≠ 0) → (strcmp a b = 0 ↔ a = b) := by
  intro a
  induction a with
  | nil =>
    intro b _ hb
    cases b with
    | nil => simp [strcmp]
    | cons y ys =>
      simp only [strcmp]
      constructor
      · intro h
        exfalso
        have hy := hb y (List.mem_cons_self y ys)
        omega
      · intro h
        exact absurd h (by simp)
  | cons x xs ih =>
    intro b ha hb
    cases b with
    | nil =>
      simp only [strcmp]
      constructor
      · intro h
        exfalso
        have hx := ha x (List.mem_cons_self x xs)
        omega
      · intro h
        exact absurd h (by simp)
    | cons y ys =>
      simp only [strcmp]
      by_cases hxy : x = y
      · subst hxy
        have hrec := ih ys (fun c hc => ha c (List.mem_cons_of_mem x hc))
          (fun c hc => hb c (List.mem_cons_of_mem x hc))
        simp [hrec]
      · simp only [hxy, if_false]
        constructor
        · intro h
          exact absurd (by omega : x = y) hxy
        · intro h
          cases h
          exact absurd rfl hxy

/-- C9: for NUL-terminated strings (no zero byte in the content),
authenticate returns 1 when username is exactly "admin" and password is
exactly "supersecret123", and 0 otherwise. -/
theorem authenticate_correct (u p : List Nat)
    (hu : ∀ c ∈ u, c ≠ 0) (hp : ∀ c ∈ p, c ≠ 0) :
    authenticate u p =
      if u = valid_username ∧ p = valid_password then 1 else 0 := by
  have e1 := strcmp_eq_zero_iff u valid_username hu (by decide)
  have e2 := strcmp_eq_zero_iff p valid_password hp (by decide)
  simp only [authenticate, e1, e2]

/-- C9 witness: the correct credentials are nonzero byte strings and
authenticate accepts them. -/
theorem authenticate_correct_witness :
    (∀ c ∈ valid_username, c ≠ 0) ∧ (∀ c ∈ valid_password, c ≠ 0) ∧
      authenticate valid_username valid_password = 1 := by
  refine ⟨by decide, by decide, ?_⟩
  rw [authenticate_correct valid_username valid_password (by decide)
    (by decide)]
  simp

end ExamplesStringEncryption

namespace TestsComplex

/-- C10: main of src/rustcc/tests/complex.c returns 110: z reaches 53,
factorial(4) = 24, fibonacci(7) = 13, calculate_sum gives 75, result =
53 + (24 * 13) / (75 % 10 + 1) = 105, and 105 % 3 == 0 adds 5. -/
theorem main_returns_110 : main = 110 := by
  decide

end TestsComplex

namespace Corpus

/-- C5, as stated, is false: compound assignments do occur in the corpus,
for instance sum += i * j inside complex_loops and result -= 1 inside the
switch of main in src/rustcc/tests/complex.c. -/
theorem no_compound_assign_false :
    ¬ (stmtHasAssignOp .addAsgn complexLoopsBody = false ∧
        stmtHasAssignOp .subAsgn complexLoopsBody = false ∧
        stmtHasAssignOp .addAsgn complexMainBody = false ∧
        stmtHasAssignOp .subAsgn complexMainBody = false) := by
  decide

/-- C5 (amended): both += and -= appear in the corpus (+= in complex_loops
and in main of tests/complex.c, -= in main of tests/complex.c), so parser
support for += and -= is required, not optional. -/
theorem compound_assign_present :
    stmtHasAssignOp .addAsgn complexLoopsBody = true ∧
      stmtHasAssignOp .addAsgn complexMainBody = true ∧
      stmtHasAssignOp .subAsgn complexMainBody = true := by
  decide

end Corpus

namespace EncryptPass

lemma xorStream_xorStream (key : Nat → Nat) :
    ∀ (L : List Nat) (i : Nat), xorStream key i (xorStream key i L) = L := by
  intro L
  induction L with
  | nil => intro i; rfl
  | cons b rest ih =>
    intro i
    simp only [xorStream, ih (i + 1)]
    congr 1
    exact Nat.xor_cancel_right _ _

/-- C7: decrypting the encryption of any literal with its per-literal key
stream restores the literal byte-for-byte, including the empty literal and
the byte sequence of "%d " (37, 100, 32). -/
theorem decrypt_encrypt_roundtrip (key : Nat → Nat) (L : List Nat) :
    decrypt key (encrypt key L) = L ∧ decrypt key (encrypt key []) = [] ∧
      decrypt key (encrypt key [37, 100, 32]) = [37, 100, 32] :=
  ⟨xorStream_xorStream key L 0, xorStream_xorStream key [] 0,
    xorStream_xorStream key [37, 100, 32] 0⟩

end EncryptPass

namespace Flatten

lemma execFlat_eq_execCFG {σ : Type} (g : CFG σ) (enc dec : Nat → Nat)
    (hinv : ∀ i, dec (enc i) = i) :
    ∀ fuel bid (s : σ) out,
      execFlat g enc dec fuel (enc bid) s out = execCFG g fuel bid s out := by
  intro fuel
  induction fuel with
  | zero => intro bid s out; rfl
  | succ fuel ih =>
    intro bid s out
    rw [execFlat, execCFG, hinv bid]
    cases hb : g.blocks[bid]? with
    | none => rfl
    | some b =>
      simp only
      cases ht : stepTerm b.term (runBody b.body s).1 with
      | inl v => rfl
      | inr nb => exact ih nb (runBody b.body s).1 (out ++ (runBody b.body s).2)

lemma runBody_encrypt {σ : Type} (keyOf : List Nat → Nat → Nat) :
    ∀ (body : List (SStmt σ)) (s : σ),
      runBody (body.map (encryptSStmt keyOf)) s = runBody body s := by
  intro body
  induction body with
  | nil => intro s; rfl
  | cons stmt rest ih =>
    intro s
    cases stmt with
    | update f =>
      simp only [List.map_cons, encryptSStmt, runBody]
      exact ih (f s)
    | outInt f =>
      simp only [List.map_cons, encryptSStmt, runBody, ih s]
    | outStr src =>
      cases src with
      | plain bs =>
        simp only [List.map_cons, encryptSStmt, runBody, ih s]
        simp [strValue, EncryptPass.decrypt, EncryptPass.encrypt,
          EncryptPass.xorStream_xorStream]
      | encrypted key cipher =>
        simp only [List.map_cons, encryptSStmt, runBody, ih s]

lemma execCFG_encrypt {σ : Type} (g : CFG σ) (keyOf : List Nat → Nat → Nat) :
    ∀ fuel bid (s : σ) out,
      execCFG (encryptCFG keyOf g) fuel bid s out = execCFG g fuel bid s out := by
  intro fuel
  induction fuel with
  | zero => intro bid s out; rfl
  | succ fuel ih =>
    intro bid s out
    rw [execCFG, execCFG]
    have hb : (encryptCFG keyOf g).blocks[bid]?
        = (g.blocks[bid]?).map (encryptBlock keyOf) := by
      simp [encryptCFG]
    rw [hb]
    cases hgb : g.blocks[bid]? with
    | none => rfl
    | some b =>
      simp only [Option.map_some', encryptBlock]
      rw [runBody_encrypt keyOf b.body s]
      cases ht : stepTerm b.term (runBody b.body s).1 with
      | inl v => rfl
      | inr nb => exact ih nb (runBody b.body s).1 (out ++ (runBody b.body s).2)

/-- C6: for every CFG, every block-to-state numbering enc with inverse dec,
every per-literal key choice, every store and every fuel bound: the
flattened dispatcher form produces exactly the observable behavior of the
original CFG (the same ordered stdout events and the same return value), and
so does the flattened-and-string-encrypted form: running it emits identical
stdout events — every printed integer and the identical bytes of every
printed string — and returns the identical value, the process exit code. -/
theorem flatten_encrypt_preserves_semantics {σ : Type} (g : CFG σ)
    (enc dec : Nat → Nat) (keyOf : List Nat → Nat → Nat)
    (hinv : ∀ i, dec (enc i) = i) (fuel : Nat) (s : σ) :
    execFlat g enc dec fuel (enc g.entry) s [] = execCFG g fuel g.entry s []
      ∧ execFlat (encryptCFG keyOf g) enc dec fuel
          (enc (encryptCFG keyOf g).entry) s []
        = execCFG g fuel g.entry s [] :=
  ⟨execFlat_eq_execCFG g enc dec hinv fuel g.entry s [],
    (execFlat_eq_execCFG (encryptCFG keyOf g) enc dec hinv fuel g.entry
      s []).trans (execCFG_encrypt g keyOf fuel g.entry s [])⟩

/-- C6 witness: the equivalence on a concrete two-block CFG printing two
integers and the string "%d ", with a concrete shifted numbering and a
concrete per-literal key stream, at input store 7: the flattened run and the
flattened-plus-encrypted run both match the original, which emits the events
8, the bytes of "%d " and 16, and returns 108. -/
theorem flatten_encrypt_preserves_semantics_witness :
    (∀ i, decEx (encEx i) = i) ∧
      (execFlat exampleCFG encEx decEx 3 (encEx exampleCFG.entry) (7:Int) []
          = execCFG exampleCFG 3 exampleCFG.entry 7 []
        ∧ execFlat (encryptCFG keyEx exampleCFG) encEx decEx 3
            (encEx (encryptCFG keyEx exampleCFG).entry) (7:Int) []
          = execCFG exampleCFG 3 exampleCFG.entry 7 []) ∧
      execCFG exampleCFG 3 exampleCFG.entry (7:Int) []
        = some ([.outInt 8, .outStr [37, 100, 32], .outInt 16], 108) :=
  ⟨fun i => by simp [encEx, decEx],
    flatten_encrypt_preserves_semantics exampleCFG encEx decEx keyEx
      (fun i => by simp [encEx, decEx]) 3 7,
    by decide⟩

end Flatten
